import Mathlib

/-!
Verification of the relative-pointer core of the rkyv zero-copy
serialization library (src/rel_ptr/mod.rs), shallowly embedded in Lean.

Machine integers are modelled by Nat (for usize) and Int (for isize),
parameterized by the pointer width w in bits: a usize is a natural number
below 2 ^ w, and an isize is an integer in [-2 ^ (w - 1), 2 ^ (w - 1) - 1].
-/

namespace RelPtrCore

/-- OffsetError from the source: the two construction-time failure kinds. -/
inductive OffsetError where
  | IsizeOverflow
  | ExceedsStorageRange
deriving DecidableEq

/-- The bit pattern of isize MAX as usize at pointer width w: 2 ^ (w-1) - 1. -/
def isizeMaxN (w : Nat) : Nat := 2 ^ (w - 1) - 1

/-- The bit pattern of isize MIN as usize at pointer width w: 2 ^ (w-1). -/
def isizeMinN (w : Nat) : Nat := 2 ^ (w - 1)

/-- Reinterpret an unsigned w-bit value as a signed one (result as isize
in the source): two-complement reading, so values above the signed maximum
wrap tgt negatives. -/
def toSigned (w : Nat) (n : Nat) : Int :=
  if n ≤ isizeMaxN w then (n : Int) else (n : Int) - 2 ^ w

/-- overflowing_sub of tgt and frm on w-bit unsigned values: the wrapped
difference (tgt - frm) mod 2 ^ w (inputs are assumed below 2 ^ w). -/
def wrappingSub (w tgt frm : Nat) : Nat := (tgt + 2 ^ w - frm) % 2 ^ w

/-- signed_offset(from, tgt) from the source: computes the overflowing
subtraction of from out of tgt and accepts the result when either there was
no borrow and the result is at most the signed maximum bit pattern, or
there was a borrow and the result is at least the signed minimum bit
pattern; otherwise it reports IsizeOverflow.  The overflow flag of
overflowing_sub is exactly tgt < frm on in-range inputs. -/
def signed_offset (w frm tgt : Nat) : Except OffsetError Int :=
  if (¬ tgt < frm ∧ wrappingSub w tgt frm ≤ isizeMaxN w) ∨
     (tgt < frm ∧ isizeMinN w ≤ wrappingSub w tgt frm) then
    Except.ok (toSigned w (wrappingSub w tgt frm))
  else
    Except.error OffsetError.IsizeOverflow

/-- The closed set of storage widths instantiated by the impl_offset
invocations in the source: i8, i16, i32, i64, u8, u16, u32, u64. -/
inductive OffsetTy where
  | i8
  | i16
  | i32
  | i64
  | u8
  | u16
  | u32
  | u64
deriving DecidableEq

/-- Smallest value representable by the storage width (try_from lower bound). -/
def OffsetTy.lo : OffsetTy → Int
  | .i8 => -128
  | .i16 => -32768
  | .i32 => -2147483648
  | .i64 => -9223372036854775808
  | .u8 => 0
  | .u16 => 0
  | .u32 => 0
  | .u64 => 0

/-- Largest value representable by the storage width (try_from upper bound). -/
def OffsetTy.hi : OffsetTy → Int
  | .i8 => 127
  | .i16 => 32767
  | .i32 => 2147483647
  | .i64 => 9223372036854775807
  | .u8 => 255
  | .u16 => 65535
  | .u32 => 4294967295
  | .u64 => 18446744073709551615

/-- Whether the storage width is one of the unsigned variants. -/
def OffsetTy.isUnsigned : OffsetTy → Bool
  | .u8 => true
  | .u16 => true
  | .u32 => true
  | .u64 => true
  | _ => false

/-- Offset::between(from, tgt) from the source: propagates the error of
signed_offset (the question-mark operator), then narrows via try_from,
which succeeds exactly when the distance is representable by the storage
width, and otherwise yields ExceedsStorageRange.  The stored offset is
kept as its mathematical value (try_from is value-preserving). -/
def between (w : Nat) (ty : OffsetTy) (frm tgt : Nat) : Except OffsetError Int :=
  match signed_offset w frm tgt with
  | Except.error e => Except.error e
  | Except.ok d =>
    if ty.lo ≤ d ∧ d ≤ ty.hi then Except.ok d
    else Except.error OffsetError.ExceedsStorageRange

/-- Offset::to_isize from the source (self as isize): widening an in-range
stored value back tgt the full signed range is the identity on its
mathematical value (sign-extension for signed widths, zero-extension for
unsigned ones). -/
def to_isize (d : Int) : Int := d

/-- RawRelPtr: repr(transparent) over a single stored offset.  The storage
width is carried alongside the mathematical value of the stored offset. -/
structure RawRelPtr where
  ty : OffsetTy
  off : Int
deriving DecidableEq

/-- RawRelPtr::emplace(from, tgt, out): computes Offset::between(from, tgt),
propagating its error, and writes the resulting offset into out.  The
written pointer is returned in place of the out-parameter. -/
def RawRelPtr.emplace (w : Nat) (ty : OffsetTy) (frm tgt : Nat) :
    Except OffsetError RawRelPtr :=
  match between w ty frm tgt with
  | Except.error e => Except.error e
  | Except.ok o => Except.ok { ty := ty, off := o }

/-- RawRelPtr::base: the storage address of the pointer itself, the zero
point of the offset.  Addresses are modelled as integers supplied at
access time. -/
def RawRelPtr.base (addr : Int) : Int := addr

/-- RawRelPtr::offset: the stored offset widened via to_isize. -/
def RawRelPtr.offset (p : RawRelPtr) : Int := to_isize p.off

/-- RawRelPtr::as_ptr: self.base().offset(self.offset()), the absolute
address of the referent, for a pointer whose storage sits at addr. -/
def RawRelPtr.as_ptr (p : RawRelPtr) (addr : Int) : Int :=
  RawRelPtr.base addr + RawRelPtr.offset p

/-- RawRelPtr::as_mut_ptr: the same address computation as as_ptr. -/
def RawRelPtr.as_mut_ptr (p : RawRelPtr) (addr : Int) : Int :=
  RawRelPtr.base addr + RawRelPtr.offset p

/-- RelPtr: a raw relative pointer plus the archived metadata of the
referent.  The metadata type is abstract (ArchivedMetadata of T). -/
structure RelPtr (M : Type) where
  raw_ptr : RawRelPtr
  metadata : M

/-- RelPtr::resolve_emplace(from, tgt, value, metadata_resolver, out):
emplaces the raw pointer at the sub-position from + fpRaw of the raw_ptr
field, propagating its error, then resolves the metadata of value at the
sub-position from + fpMeta of the metadata field.  resolve_metadata
abstracts the external capability resolve_metadata(pos, resolver, out) of
ArchiveUnsized, deriving archived metadata from the value and its resolver
at a given position. -/
def RelPtr.resolve_emplace {V R M : Type} (resolve_metadata : Nat → V → R → M)
    (w : Nat) (ty : OffsetTy) (fpRaw fpMeta frm tgt : Nat)
    (value : V) (metadata_resolver : R) : Except OffsetError (RelPtr M) :=
  match RawRelPtr.emplace w ty (frm + fpRaw) tgt with
  | Except.error e => Except.error e
  | Except.ok rp =>
    Except.ok { raw_ptr := rp
                metadata := resolve_metadata (frm + fpMeta) value metadata_resolver }

/-- The MaybeUninit out-parameter of resolve_emplace: each field is none
until written. -/
structure RelPtrOut (M : Type) where
  raw_ptr : Option RawRelPtr
  metadata : Option M

/-- RelPtr::resolve_emplace as a state transformer on its out-parameter,
making the order of field writes explicit: the question-mark operator on
the raw emplace returns the error before the metadata resolution is
invoked, leaving out untouched; on success both fields are written. -/
def RelPtr.resolve_emplace_into {V R M : Type} (resolve_metadata : Nat → V → R → M)
    (w : Nat) (ty : OffsetTy) (fpRaw fpMeta frm tgt : Nat)
    (value : V) (metadata_resolver : R) (out : RelPtrOut M) :
    Except OffsetError Unit × RelPtrOut M :=
  match RawRelPtr.emplace w ty (frm + fpRaw) tgt with
  | Except.error e => (Except.error e, out)
  | Except.ok rp =>
    (Except.ok (),
     { raw_ptr := some rp
       metadata := some (resolve_metadata (frm + fpMeta) value metadata_resolver) })

/-! ### Helper lemmas -/

/-- On in-range inputs, signed_offset is exactly the range check of the
mathematical difference tgt - frm over [-2 ^ (w-1), 2 ^ (w-1) - 1],
returning that difference on success. -/
theorem signed_offset_char (w frm tgt : Nat) (hw : 0 < w)
    (hf : frm < 2 ^ w) (ht : tgt < 2 ^ w) :
    signed_offset w frm tgt =
      if -(2 ^ (w - 1) : Int) ≤ (tgt : Int) - frm ∧ (tgt : Int) - frm ≤ 2 ^ (w - 1) - 1 then
        Except.ok ((tgt : Int) - frm)
      else
        Except.error OffsetError.IsizeOverflow := by
  have hPW : (2 : Nat) ^ w = 2 * 2 ^ (w - 1) := by
    conv_lhs => rw [show w = w - 1 + 1 by omega]
    ring
  have hP1 : (0 : Nat) < 2 ^ (w - 1) := by positivity
  have hcastP : (((2 : Nat) ^ (w - 1) : Nat) : Int) = (2 : Int) ^ (w - 1) := by
    push_cast
    ring
  have hcastW : (((2 : Nat) ^ w : Nat) : Int) = (2 : Int) ^ w := by
    push_cast
    ring
  by_cases hlt : tgt < frm
  · have hres : wrappingSub w tgt frm = 2 ^ w - (frm - tgt) := by
      unfold wrappingSub
      rw [Nat.mod_eq_of_lt (by omega)]
      omega
    simp only [signed_offset, isizeMaxN, isizeMinN, hres]
    by_cases hok : 2 ^ (w - 1) ≤ 2 ^ w - (frm - tgt)
    · rw [if_pos (Or.inr ⟨hlt, hok⟩), if_pos (by constructor <;> omega)]
      refine congrArg Except.ok ?_
      simp only [toSigned, isizeMaxN]
      rw [if_neg (by omega)]
      omega
    · rw [if_neg (by rintro (⟨h, _⟩ | ⟨_, h⟩) <;> [exact h hlt; exact hok h]),
        if_neg (by omega)]
  · have hres : wrappingSub w tgt frm = tgt - frm := by
      unfold wrappingSub
      rw [show tgt + 2 ^ w - frm = (tgt - frm) + 2 ^ w by omega, Nat.add_mod_right,
        Nat.mod_eq_of_lt (by omega)]
    simp only [signed_offset, isizeMaxN, isizeMinN, hres]
    by_cases hok : tgt - frm ≤ 2 ^ (w - 1) - 1
    · rw [if_pos (Or.inl ⟨hlt, hok⟩), if_pos (by constructor <;> omega)]
      refine congrArg Except.ok ?_
      simp only [toSigned, isizeMaxN]
      rw [if_pos hok]
      omega
    · rw [if_neg (by rintro (⟨_, h⟩ | ⟨h, _⟩) <;> [exact hok h; exact hlt h]),
        if_neg (by omega)]

/-- On in-range inputs, a successful signed_offset returns the exact
mathematical difference. -/
theorem signed_offset_ok_val (w frm tgt : Nat) (d : Int) (hw : 0 < w)
    (hf : frm < 2 ^ w) (ht : tgt < 2 ^ w)
    (hd : signed_offset w frm tgt = Except.ok d) : d = (tgt : Int) - frm := by
  rw [signed_offset_char w frm tgt hw hf ht] at hd
  by_cases hc : -(2 ^ (w - 1) : Int) ≤ (tgt : Int) - frm ∧ (tgt : Int) - frm ≤ 2 ^ (w - 1) - 1
  · rw [if_pos hc] at hd
    injection hd with h
    exact h.symm
  · rw [if_neg hc] at hd
    exact Except.noConfusion hd

/-- A successful between implies a successful signed_offset with the same
value, which moreover lies in the range of the storage width. -/
theorem between_ok_inv (w : Nat) (ty : OffsetTy) (frm tgt : Nat) (o : Int)
    (ho : between w ty frm tgt = Except.ok o) :
    signed_offset w frm tgt = Except.ok o ∧ ty.lo ≤ o ∧ o ≤ ty.hi := by
  unfold between at ho
  cases hs : signed_offset w frm tgt with
  | error e =>
    rw [hs] at ho
    exact Except.noConfusion ho
  | ok d =>
    rw [hs] at ho
    have ho2 : (if ty.lo ≤ d ∧ d ≤ ty.hi then Except.ok d
        else Except.error OffsetError.ExceedsStorageRange) = Except.ok o := ho
    by_cases hc : ty.lo ≤ d ∧ d ≤ ty.hi
    · rw [if_pos hc] at ho2
      injection ho2 with h
      subst h
      exact ⟨rfl, hc.1, hc.2⟩
    · rw [if_neg hc] at ho2
      exact Except.noConfusion ho2

/-- A successful signed_offset whose value fits the storage width makes
between succeed with that value. -/
theorem between_of_signed_ok (w : Nat) (ty : OffsetTy) (frm tgt : Nat) (d : Int)
    (hd : signed_offset w frm tgt = Except.ok d) (hr : ty.lo ≤ d ∧ d ≤ ty.hi) :
    between w ty frm tgt = Except.ok d := by
  unfold between
  rw [hd]
  exact if_pos hr

/-- A successful signed_offset whose value does not fit the storage width
makes between fail with ExceedsStorageRange. -/
theorem between_of_signed_out (w : Nat) (ty : OffsetTy) (frm tgt : Nat) (d : Int)
    (hd : signed_offset w frm tgt = Except.ok d) (hr : ¬ (ty.lo ≤ d ∧ d ≤ ty.hi)) :
    between w ty frm tgt = Except.error OffsetError.ExceedsStorageRange := by
  unfold between
  rw [hd]
  exact if_neg hr

/-- A failing signed_offset propagates its error through between. -/
theorem between_of_signed_err (w : Nat) (ty : OffsetTy) (frm tgt : Nat) (e : OffsetError)
    (he : signed_offset w frm tgt = Except.error e) :
    between w ty frm tgt = Except.error e := by
  unfold between
  rw [he]

/-- A successful emplace implies a successful between with the value the
pointer stores. -/
theorem emplace_ok_inv (w : Nat) (ty : OffsetTy) (frm tgt : Nat) (p : RawRelPtr)
    (hp : RawRelPtr.emplace w ty frm tgt = Except.ok p) :
    between w ty frm tgt = Except.ok p.off := by
  unfold RawRelPtr.emplace at hp
  cases hb : between w ty frm tgt with
  | error e =>
    rw [hb] at hp
    exact Except.noConfusion hp
  | ok o =>
    rw [hb] at hp
    injection hp with h
    subst h
    rfl

/-- A failing between propagates its error through emplace. -/
theorem emplace_of_between_err (w : Nat) (ty : OffsetTy) (frm tgt : Nat) (e : OffsetError)
    (he : between w ty frm tgt = Except.error e) :
    RawRelPtr.emplace w ty frm tgt = Except.error e := by
  unfold RawRelPtr.emplace
  rw [he]

/-- On in-range inputs, a successfully emplaced pointer stores the exact
mathematical distance. -/
theorem emplace_off (w : Nat) (ty : OffsetTy) (frm tgt : Nat) (p : RawRelPtr)
    (hw : 0 < w) (hf : frm < 2 ^ w) (ht : tgt < 2 ^ w)
    (hp : RawRelPtr.emplace w ty frm tgt = Except.ok p) :
    p.off = (tgt : Int) - frm := by
  have hb := emplace_ok_inv w ty frm tgt p hp
  have hs := (between_ok_inv w ty frm tgt p.off hb).1
  exact signed_offset_ok_val w frm tgt p.off hw hf ht hs

/-- The unsigned storage widths have lower bound zero. -/
theorem OffsetTy.lo_of_unsigned (ty : OffsetTy) (h : ty.isUnsigned = true) :
    ty.lo = 0 := by
  cases ty <;> first
  | rfl
  | exact absurd h (by decide)

/-! ### Claim theorems -/

/-- C1: for all positions frm, tgt in the full unsigned range,
signed_offset succeeds exactly when the mathematical difference tgt - frm
lies in the full signed range [-2 ^ (w-1), 2 ^ (w-1) - 1], and on success
returns that exact difference; and the five boundary values around the
signed maximum M = 2 ^ (w-1) - 1 behave exactly as stated: (0, M) gives M,
(M, 0) gives -M, (0, M+1) overflows, (M+1, 0) gives -M-1, and (0, M+2)
overflows. -/
theorem signed_offset_spec (w frm tgt : Nat) (hw : 2 ≤ w)
    (hf : frm < 2 ^ w) (ht : tgt < 2 ^ w) :
    ((∃ d, signed_offset w frm tgt = Except.ok d) ↔
      (-(2 ^ (w - 1) : Int) ≤ (tgt : Int) - frm ∧ (tgt : Int) - frm ≤ 2 ^ (w - 1) - 1))
    ∧ (∀ d, signed_offset w frm tgt = Except.ok d → d = (tgt : Int) - frm)
    ∧ (¬ (-(2 ^ (w - 1) : Int) ≤ (tgt : Int) - frm ∧ (tgt : Int) - frm ≤ 2 ^ (w - 1) - 1) →
        signed_offset w frm tgt = Except.error OffsetError.IsizeOverflow)
    ∧ signed_offset w 0 (2 ^ (w - 1) - 1) = Except.ok ((2 : Int) ^ (w - 1) - 1)
    ∧ signed_offset w (2 ^ (w - 1) - 1) 0 = Except.ok (-((2 : Int) ^ (w - 1) - 1))
    ∧ signed_offset w 0 (2 ^ (w - 1)) = Except.error OffsetError.IsizeOverflow
    ∧ signed_offset w (2 ^ (w - 1)) 0 = Except.ok (-(2 : Int) ^ (w - 1))
    ∧ signed_offset w 0 (2 ^ (w - 1) + 1) = Except.error OffsetError.IsizeOverflow := by
  have hw1 : 0 < w := by omega
  have hPW : (2 : Nat) ^ w = 2 * 2 ^ (w - 1) := by
    conv_lhs => rw [show w = w - 1 + 1 by omega]
    ring
  have hP2 : (2 : Nat) ≤ 2 ^ (w - 1) := by
    calc (2 : Nat) = 2 ^ 1 := by norm_num
    _ ≤ 2 ^ (w - 1) := Nat.pow_le_pow_right (by norm_num) (by omega)
  have hcastP : (((2 : Nat) ^ (w - 1) : Nat) : Int) = (2 : Int) ^ (w - 1) := by
    push_cast
    ring
  have hcastW : (((2 : Nat) ^ w : Nat) : Int) = (2 : Int) ^ w := by
    push_cast
    ring
  refine ⟨?_, ?_, ?_, ?_, ?_, ?_, ?_, ?_⟩
  · rw [signed_offset_char w frm tgt hw1 hf ht]
    constructor
    · rintro ⟨d, hd⟩
      by_cases hc : -(2 ^ (w - 1) : Int) ≤ (tgt : Int) - frm ∧
          (tgt : Int) - frm ≤ 2 ^ (w - 1) - 1
      · exact hc
      · rw [if_neg hc] at hd
        exact Except.noConfusion hd
    · intro hc
      exact ⟨(tgt : Int) - frm, by rw [if_pos hc]⟩
  · intro d hd
    exact signed_offset_ok_val w frm tgt d hw1 hf ht hd
  · intro hc
    rw [signed_offset_char w frm tgt hw1 hf ht, if_neg hc]
  · rw [signed_offset_char w 0 (2 ^ (w - 1) - 1) hw1 (by omega) (by omega),
      if_pos (by constructor <;> omega)]
    exact congrArg Except.ok (by omega)
  · rw [signed_offset_char w (2 ^ (w - 1) - 1) 0 hw1 (by omega) (by omega),
      if_pos (by constructor <;> omega)]
    exact congrArg Except.ok (by omega)
  · rw [signed_offset_char w 0 (2 ^ (w - 1)) hw1 (by omega) (by omega),
      if_neg (by omega)]
  · rw [signed_offset_char w (2 ^ (w - 1)) 0 hw1 (by omega) (by omega),
      if_pos (by constructor <;> omega)]
    exact congrArg Except.ok (by omega)
  · rw [signed_offset_char w 0 (2 ^ (w - 1) + 1) hw1 (by omega) (by omega),
      if_neg (by omega)]

/-- Witness for C1 at the 64-bit width: the boundary value
signed_offset(0, M) = Ok(M). -/
theorem signed_offset_spec_witness :
    signed_offset 64 0 (2 ^ 63 - 1) = Except.ok ((2 : Int) ^ 63 - 1) :=
  (signed_offset_spec 64 0 1 (by norm_num) (by norm_num) (by norm_num)).2.2.2.1

/-- C2: for every storage width, between succeeds exactly when
signed_offset succeeds with a value in the representable range of the
width; it propagates IsizeOverflow when signed_offset fails, and fails
with ExceedsStorageRange when the distance fits the full signed range but
not the width. -/
theorem between_spec (w : Nat) (ty : OffsetTy) (frm tgt : Nat) :
    (∀ d, signed_offset w frm tgt = Except.ok d →
      (ty.lo ≤ d ∧ d ≤ ty.hi → between w ty frm tgt = Except.ok d)
      ∧ (¬ (ty.lo ≤ d ∧ d ≤ ty.hi) →
          between w ty frm tgt = Except.error OffsetError.ExceedsStorageRange))
    ∧ (signed_offset w frm tgt = Except.error OffsetError.IsizeOverflow →
        between w ty frm tgt = Except.error OffsetError.IsizeOverflow)
    ∧ (∀ d, between w ty frm tgt = Except.ok d →
        signed_offset w frm tgt = Except.ok d ∧ ty.lo ≤ d ∧ d ≤ ty.hi) := by
  refine ⟨?_, ?_, ?_⟩
  · intro d hd
    exact ⟨fun hr => between_of_signed_ok w ty frm tgt d hd hr,
      fun hr => between_of_signed_out w ty frm tgt d hd hr⟩
  · intro he
    exact between_of_signed_err w ty frm tgt OffsetError.IsizeOverflow he
  · intro d hd
    exact between_ok_inv w ty frm tgt d hd

/-- Witness for C2 at the 8-bit signed width: distance 50 fits and is
returned. -/
theorem between_spec_witness :
    between 64 OffsetTy.i8 100 150 = Except.ok 50 :=
  (((between_spec 64 OffsetTy.i8 100 150).1 50 (by rfl)).1 (by decide))

/-- C3: as_ptr is base plus offset for every raw relative pointer, and a
successfully emplaced pointer is position independent: placed at address
X + frm for any base X, it resolves tgt X + tgt. -/
theorem as_ptr_position_independence (w : Nat) (ty : OffsetTy) (frm tgt : Nat)
    (p : RawRelPtr) (hw : 0 < w) (hf : frm < 2 ^ w) (ht : tgt < 2 ^ w)
    (hp : RawRelPtr.emplace w ty frm tgt = Except.ok p) :
    (∀ (q : RawRelPtr) (addr : Int),
      RawRelPtr.as_ptr q addr = RawRelPtr.base addr + RawRelPtr.offset q)
    ∧ ∀ X : Int, RawRelPtr.as_ptr p (X + frm) = X + tgt := by
  refine ⟨fun q addr => rfl, fun X => ?_⟩
  have hoff := emplace_off w ty frm tgt p hw hf ht hp
  unfold RawRelPtr.as_ptr RawRelPtr.base RawRelPtr.offset to_isize
  rw [hoff]
  ring

/-- Witness for C3: the pointer emplaced between positions 100 and 150 at
the 8-bit signed width, placed at base 1000, resolves tgt 1000 + 150. -/
theorem as_ptr_position_independence_witness :
    RawRelPtr.as_ptr { ty := OffsetTy.i8, off := 50 } (1000 + (100 : Nat)) =
      1000 + (150 : Nat) :=
  (as_ptr_position_independence 64 OffsetTy.i8 100 150
    { ty := OffsetTy.i8, off := 50 } (by norm_num) (by norm_num) (by norm_num)
    (by rfl)).2 1000

/-- C4: a successful between returns an offset whose widening to_isize is
exactly the full-range signed distance computed by signed_offset, and a
successfully emplaced pointer reports exactly tgt - frm as its offset. -/
theorem offset_roundtrip (w : Nat) (ty : OffsetTy) (frm tgt : Nat)
    (hw : 0 < w) (hf : frm < 2 ^ w) (ht : tgt < 2 ^ w) :
    (∀ o, between w ty frm tgt = Except.ok o →
      to_isize o = (tgt : Int) - frm ∧
      signed_offset w frm tgt = Except.ok (to_isize o))
    ∧ ∀ p, RawRelPtr.emplace w ty frm tgt = Except.ok p →
        RawRelPtr.offset p = (tgt : Int) - frm := by
  constructor
  · intro o ho
    have hs := (between_ok_inv w ty frm tgt o ho).1
    have hv := signed_offset_ok_val w frm tgt o hw hf ht hs
    exact ⟨hv, by unfold to_isize; exact hs⟩
  · intro p hp
    have hoff := emplace_off w ty frm tgt p hw hf ht hp
    unfold RawRelPtr.offset to_isize
    exact hoff

/-- Witness for C4: the pointer emplaced between 100 and 150 at the 8-bit
signed width reports offset 50. -/
theorem offset_roundtrip_witness :
    RawRelPtr.offset { ty := OffsetTy.i8, off := 50 } = (150 : Nat) - ((100 : Nat) : Int) :=
  (offset_roundtrip 64 OffsetTy.i8 100 150 (by norm_num) (by norm_num)
    (by norm_num)).2 { ty := OffsetTy.i8, off := 50 } (by rfl)

/-- C5: concrete 8-bit signed scenarios: between(100, 150) stores 50 and
the emplaced pointer placed at any address X resolves tgt X + 50; between
(100, 400) fails with ExceedsStorageRange because 300 exceeds the range
of i8. -/
theorem concrete_i8_scenarios :
    between 64 OffsetTy.i8 100 150 = Except.ok 50
    ∧ RawRelPtr.emplace 64 OffsetTy.i8 100 150 =
        Except.ok { ty := OffsetTy.i8, off := 50 }
    ∧ (∀ X : Int, RawRelPtr.as_ptr { ty := OffsetTy.i8, off := 50 } X = X + 50)
    ∧ between 64 OffsetTy.i8 100 400 = Except.error OffsetError.ExceedsStorageRange :=
  ⟨by rfl, by rfl, fun X => rfl, by rfl⟩

/-- C6: a successful resolve_emplace emplaces the address component at the
sub-position of the raw_ptr field, storing the signed distance from
frm + fpRaw tgt tgt, and resolves the metadata at the sub-position of the
metadata field, so that the metadata accessor returns exactly the metadata
derived from the same value by its resolver. -/
theorem resolve_emplace_spec {V R M : Type} (resolve_metadata : Nat → V → R → M)
    (w : Nat) (ty : OffsetTy) (fpRaw fpMeta frm tgt : Nat)
    (value : V) (mr : R) (p : RelPtr M)
    (hw : 0 < w) (hf : frm + fpRaw < 2 ^ w) (ht : tgt < 2 ^ w)
    (hp : RelPtr.resolve_emplace resolve_metadata w ty fpRaw fpMeta frm tgt value mr =
      Except.ok p) :
    RawRelPtr.offset p.raw_ptr = (tgt : Int) - (frm + fpRaw)
    ∧ p.metadata = resolve_metadata (frm + fpMeta) value mr := by
  unfold RelPtr.resolve_emplace at hp
  cases hemp : RawRelPtr.emplace w ty (frm + fpRaw) tgt with
  | error e =>
    rw [hemp] at hp
    exact Except.noConfusion hp
  | ok rp =>
    rw [hemp] at hp
    injection hp with h
    subst h
    have hoff := emplace_off w ty (frm + fpRaw) tgt rp hw hf ht hemp
    constructor
    · show RawRelPtr.offset rp = (tgt : Int) - (↑frm + ↑fpRaw)
      unfold RawRelPtr.offset to_isize
      omega
    · rfl

/-- Witness for C6: concrete resolve_emplace over Nat-valued metadata. -/
theorem resolve_emplace_spec_witness :
    RawRelPtr.offset { ty := OffsetTy.i8, off := 50 } =
      (150 : Nat) - (((100 : Nat) : Int) + ((0 : Nat) : Int))
    ∧ (124 : Nat) = 100 + 8 + 7 + 9 :=
  resolve_emplace_spec (fun pos v r => pos + v + r) 64 OffsetTy.i8 0 8 100 150 7 9
    { raw_ptr := { ty := OffsetTy.i8, off := 50 }, metadata := 124 }
    (by norm_num) (by norm_num) (by norm_num) (by rfl)

/-- C8: construction is the only source of failure, and every failure is
one of the two typed error values; the access-time operations are total:
as_ptr is always base plus offset, the stored offset is always returned by
the offset accessor, and the metadata accessor always returns the stored
metadata. -/
theorem construction_only_errors (w : Nat) (ty : OffsetTy) (frm tgt : Nat) :
    ((∃ o, between w ty frm tgt = Except.ok o)
      ∨ between w ty frm tgt = Except.error OffsetError.IsizeOverflow
      ∨ between w ty frm tgt = Except.error OffsetError.ExceedsStorageRange)
    ∧ ((∃ p, RawRelPtr.emplace w ty frm tgt = Except.ok p)
      ∨ RawRelPtr.emplace w ty frm tgt = Except.error OffsetError.IsizeOverflow
      ∨ RawRelPtr.emplace w ty frm tgt = Except.error OffsetError.ExceedsStorageRange)
    ∧ (∀ (V R M : Type) (res : Nat → V → R → M) (fpRaw fpMeta : Nat) (value : V) (mr : R),
      (∃ p, RelPtr.resolve_emplace res w ty fpRaw fpMeta frm tgt value mr = Except.ok p)
      ∨ RelPtr.resolve_emplace res w ty fpRaw fpMeta frm tgt value mr =
          Except.error OffsetError.IsizeOverflow
      ∨ RelPtr.resolve_emplace res w ty fpRaw fpMeta frm tgt value mr =
          Except.error OffsetError.ExceedsStorageRange)
    ∧ (∀ (p : RawRelPtr) (addr : Int),
      RawRelPtr.as_ptr p addr = RawRelPtr.base addr + RawRelPtr.offset p
      ∧ RawRelPtr.as_mut_ptr p addr = RawRelPtr.base addr + RawRelPtr.offset p
      ∧ RawRelPtr.offset p = to_isize p.off)
    ∧ (∀ (M : Type) (r : RawRelPtr) (m : M),
      RelPtr.metadata { raw_ptr := r, metadata := m } = m) := by
  refine ⟨?_, ?_, ?_, fun p addr => ⟨rfl, rfl, rfl⟩, fun _ r m => rfl⟩
  · cases hb : between w ty frm tgt with
    | ok o => exact Or.inl ⟨o, rfl⟩
    | error e =>
      cases e with
      | IsizeOverflow => exact Or.inr (Or.inl rfl)
      | ExceedsStorageRange => exact Or.inr (Or.inr rfl)
  · cases hb : RawRelPtr.emplace w ty frm tgt with
    | ok p => exact Or.inl ⟨p, rfl⟩
    | error e =>
      cases e with
      | IsizeOverflow => exact Or.inr (Or.inl rfl)
      | ExceedsStorageRange => exact Or.inr (Or.inr rfl)
  · intro V R M res fpRaw fpMeta value mr
    cases hb : RelPtr.resolve_emplace res w ty fpRaw fpMeta frm tgt value mr with
    | ok p => exact Or.inl ⟨p, rfl⟩
    | error e =>
      cases e with
      | IsizeOverflow => exact Or.inr (Or.inl rfl)
      | ExceedsStorageRange => exact Or.inr (Or.inr rfl)

/-- C9: every unsigned storage width rejects a strictly backward distance
that fits the full signed range, failing with ExceedsStorageRange. -/
theorem unsigned_rejects_backward (w : Nat) (ty : OffsetTy) (frm tgt : Nat)
    (hty : ty.isUnsigned = true) (hw : 0 < w) (hf : frm < 2 ^ w) (ht : tgt < 2 ^ w)
    (hlt : tgt < frm) (hfit : -(2 ^ (w - 1) : Int) ≤ (tgt : Int) - frm) :
    between w ty frm tgt = Except.error OffsetError.ExceedsStorageRange := by
  have hltZ : (tgt : Int) < (frm : Int) := by exact_mod_cast hlt
  have hP : (0 : Int) < 2 ^ (w - 1) := by positivity
  have hd : signed_offset w frm tgt = Except.ok ((tgt : Int) - frm) := by
    rw [signed_offset_char w frm tgt hw hf ht, if_pos (by constructor <;> omega)]
  have hlo := OffsetTy.lo_of_unsigned ty hty
  refine between_of_signed_out w ty frm tgt ((tgt : Int) - frm) hd ?_
  rintro ⟨h1, _⟩
  rw [hlo] at h1
  omega

/-- Witness for C9: the unsigned 8-bit width rejects the backward distance
from position 1 tgt position 0. -/
theorem unsigned_rejects_backward_witness :
    between 64 OffsetTy.u8 1 0 = Except.error OffsetError.ExceedsStorageRange :=
  unsigned_rejects_backward 64 OffsetTy.u8 1 0 (by rfl) (by norm_num) (by norm_num)
    (by norm_num) (by norm_num) (by norm_num)

/-- C10: when the offset construction inside resolve_emplace fails, the
error is returned before the metadata resolution is invoked, and the
out-parameter, in particular its metadata field, is left unwritten. -/
theorem resolve_emplace_error_atomic {V R M : Type}
    (resolve_metadata : Nat → V → R → M) (w : Nat) (ty : OffsetTy)
    (fpRaw fpMeta frm tgt : Nat) (value : V) (mr : R) (out : RelPtrOut M)
    (e : OffsetError)
    (he : between w ty (frm + fpRaw) tgt = Except.error e) :
    RelPtr.resolve_emplace_into resolve_metadata w ty fpRaw fpMeta frm tgt value mr out =
      (Except.error e, out)
    ∧ (RelPtr.resolve_emplace_into resolve_metadata w ty fpRaw fpMeta frm tgt
        value mr out).2.metadata = out.metadata := by
  have hemp : RawRelPtr.emplace w ty (frm + fpRaw) tgt = Except.error e :=
    emplace_of_between_err w ty (frm + fpRaw) tgt e he
  constructor
  · unfold RelPtr.resolve_emplace_into
    rw [hemp]
  · unfold RelPtr.resolve_emplace_into
    rw [hemp]

/-- Witness for C10: the 8-bit signed width cannot span from 100 tgt 400,
and the failing resolve_emplace leaves the uninitialized out-parameter
untouched. -/
theorem resolve_emplace_error_atomic_witness :
    RelPtr.resolve_emplace_into (fun pos v r => pos + v + r) 64 OffsetTy.i8 0 8 100 400
        (7 : Nat) (9 : Nat) { raw_ptr := none, metadata := none } =
      (Except.error OffsetError.ExceedsStorageRange,
        { raw_ptr := none, metadata := none })
    ∧ (RelPtr.resolve_emplace_into (fun pos v r => pos + v + r) 64 OffsetTy.i8 0 8 100 400
        (7 : Nat) (9 : Nat) { raw_ptr := none, metadata := none }).2.metadata =
      ({ raw_ptr := none, metadata := none } : RelPtrOut Nat).metadata :=
  resolve_emplace_error_atomic (fun pos v r => pos + v + r) 64 OffsetTy.i8 0 8 100 400
    7 9 { raw_ptr := none, metadata := none } OffsetError.ExceedsStorageRange (by rfl)

end RelPtrCore
